import Mathlib

/-!
Verification development for the `state_loader_no_imports.py` repository.

The Python source is shallowly embedded below:
* `Value` models the dynamic values a field can hold after inference
  (Python `None`, `int`, `float`, `str`).  Python floats are modelled as
  exact rationals; the claims under study never depend on IEEE rounding.
* Strings are modelled as Lean `String`s; the Python string operations
  used by the source (`strip`, `lower`, `upper`, `isdigit`) are modelled
  at ASCII precision, which is the precision the source exercises.
* A `Record` models a `State` object's `__dict__`: an insertion-ordered
  association list with unique keys, written by `setattr_` (overwrite in
  place, else append) and read by `getattr_`, exactly like Python's
  attribute dictionary.
* Fallible Python code (an uncaught exception) is modelled with `Option`.
-/

namespace StateLoader

/-- Dynamic value of a field: Python `None` / `int` / `float` / `str`.
Floats are modelled as exact rationals. -/
inductive Value where
  | null : Value
  | int (n : Int) : Value
  | float (q : ℚ) : Value
  | str (s : String) : Value
deriving DecidableEq, Repr

/-- Python `str.lower()` at ASCII precision. -/
def pyLower (s : String) : String := String.mk (s.data.map Char.toLower)

/-- Python `str.upper()` at ASCII precision. -/
def pyUpper (s : String) : String := String.mk (s.data.map Char.toUpper)

/-- Python `str.strip()` at ASCII precision: drop leading and trailing
whitespace. -/
def pyStrip (s : String) : String :=
  String.mk (((s.data.dropWhile Char.isWhitespace).reverse.dropWhile Char.isWhitespace).reverse)

/-- Python `c in s` for a single character. -/
def pyContains (s : String) (c : Char) : Bool := s.data.contains c

/-- Python `s.replace(",", "")`. -/
def stripCommas (s : String) : String := String.mk (s.data.filter (fun c => c != ','))

/-- Python `State._looks_like_int`: optionally signed, at least one digit,
all remaining characters decimal digits (ASCII model of `str.isdigit`). -/
def looks_like_int (s : String) : Bool :=
  match s.data with
  | [] => false
  | c :: rest =>
    if c = '-' || c = '+' then !rest.isEmpty && rest.all Char.isDigit
    else (c :: rest).all Char.isDigit

/-- Value of a list of decimal digit characters. -/
def digitsToNat (l : List Char) : Nat := l.foldl (fun n c => n * 10 + (c.toNat - '0'.toNat)) 0

/-- Python `int(s)` on a string accepted by `looks_like_int`. -/
def parseInt (s : String) : Int :=
  match s.data with
  | '-' :: rest => -(digitsToNat rest : Int)
  | '+' :: rest => (digitsToNat rest : Int)
  | l => (digitsToNat l : Int)

/-- Exponent part accepted by Python `float()`: optional sign then a
non-empty digit string. -/
def parseExp : List Char → Option Int
  | [] => none
  | '+' :: r => if !r.isEmpty && r.all Char.isDigit then some (digitsToNat r : Int) else none
  | '-' :: r => if !r.isEmpty && r.all Char.isDigit then some (-(digitsToNat r : Int)) else none
  | r => if r.all Char.isDigit then some (digitsToNat r : Int) else none

/-- Python `float(s)` modelled exactly over rationals: optional sign,
digits with an optional single decimal point (at least one digit), and an
optional exponent.  Returns `none` where Python raises `ValueError`.
Not modelled: PEP 515 underscore digit grouping (Python accepts
`1_0.5`); no theorem below depends on the float branch. -/
def pyFloat? (s : String) : Option ℚ :=
  let step1 : Int × List Char :=
    match s.data with
    | '+' :: r => (1, r)
    | '-' :: r => (-1, r)
    | cs => (1, cs)
  let sgn := step1.1
  let cs1 := step1.2
  let mant := cs1.takeWhile (fun c => !(c == 'e' || c == 'E'))
  let erest := cs1.dropWhile (fun c => !(c == 'e' || c == 'E'))
  let expOpt : Option Int :=
    match erest with
    | [] => some 0
    | _ :: ec => parseExp ec
  match expOpt with
  | none => none
  | some e =>
    let ip := mant.takeWhile (fun c => c != '.')
    let fp := (mant.dropWhile (fun c => c != '.')).drop 1
    if ip.all Char.isDigit && fp.all Char.isDigit && (!ip.isEmpty || !fp.isEmpty)
       && fp.all (fun c => c != '.') then
      some ((sgn : ℚ) * ((digitsToNat ip : ℚ) + (digitsToNat fp : ℚ) / (10 : ℚ) ^ fp.length)
        * (10 : ℚ) ^ e)
    else none

/-- The fixed exempt set of `State._convert`. -/
def exemptFields : List String :=
  ["fips", "hash", "totaltestresultssource", "dataqualitygrade", "grade", "state",
   "lastupdateet", "checktimeet"]

/-- Python `State._convert(s, key_name)`.  The `s is None` branch of the
source is unreachable in the pipeline (rows are strings and padding uses
`""`), so the embedded input is a `String`. -/
def convert (s : String) (keyName : String) : Value :=
  let s2 := pyStrip s
  if s2 = "" then .null
  else if exemptFields.contains (pyLower keyName) then .str s2
  else if pyContains s2 ',' && looks_like_int (stripCommas s2) then .int (parseInt (stripCommas s2))
  else if looks_like_int s2 then .int (parseInt s2)
  else if pyContains s2 '.' then
    match pyFloat? s2 with
    | some q => .float q
    | none => .str s2
  else .str s2

/-- A `State` object's attribute dictionary: insertion-ordered pairs with
unique keys, as in CPython's `__dict__`. -/
abbrev Record := List (String × Value)

/-- Python `getattr(obj, k, None)` restricted to its `Some`/`none` shape:
first (unique) entry with the given key. -/
def getattr_ (r : Record) (k : String) : Option Value :=
  (r.find? (fun p => p.1 == k)).map (·.2)

/-- Python `setattr(obj, k, v)`: overwrite the existing entry in place,
else append a new one (CPython dict insertion-order semantics). -/
def setattr_ : Record → String → Value → Record
  | [], k, v => [(k, v)]
  | p :: t, k, v => if p.1 = k then (k, v) :: t else p :: setattr_ t k v

/-- Row-length normalization of `State.__init__`: pad a short row with
`""` on the right, truncate a long one to the header's length. -/
def reconcileRow (header row : List String) : List String :=
  if row.length < header.length then row ++ List.replicate (header.length - row.length) ""
  else if row.length > header.length then row.take header.length
  else row

/-- Python `State.__init__(header, row)`: reconcile the row length, then
`setattr` each converted value under the stripped field name. -/
def buildState (header row : List String) : Record :=
  (header.zip (reconcileRow header row)).foldl
    (fun r kv => setattr_ r (pyStrip kv.1) (convert kv.2 kv.1)) []

/-- Scanner loop of `parse_csv_line`: remaining characters, `in_quotes`
flag, current-field buffer, fields emitted so far. -/
def parseCSVAux : List Char → Bool → List Char → List String → List String
  | [], _, cur, fields => fields ++ [String.mk cur]
  | '"' :: '"' :: rest, true, cur, fields => parseCSVAux rest true (cur ++ ['"']) fields
  | '"' :: rest, true, cur, fields => parseCSVAux rest false cur fields
  | c :: rest, true, cur, fields => parseCSVAux rest true (cur ++ [c]) fields
  | ',' :: rest, false, cur, fields => parseCSVAux rest false [] (fields ++ [String.mk cur])
  | '"' :: rest, false, cur, fields => parseCSVAux rest true cur fields
  | c :: rest, false, cur, fields => parseCSVAux rest false (cur ++ [c]) fields

/-- Python `parse_csv_line(line)`. -/
def parse_csv_line (line : String) : List String := parseCSVAux line.data false [] []

/-- Universal-newline translation performed by Python text-mode reading:
`\r\n` and lone `\r` become `\n`. -/
def normNL : List Char → List Char
  | [] => []
  | '\r' :: '\n' :: rest => '\n' :: normNL rest
  | '\r' :: rest => '\n' :: normNL rest
  | c :: rest => c :: normNL rest

/-- Split normalized text into physical lines, each keeping its trailing
newline (the last line may lack one); the empty text has no lines. -/
def splitLinesAux : List Char → List Char → List String
  | [], [] => []
  | [], acc => [String.mk acc.reverse]
  | c :: rest, acc =>
    if c = '\n' then String.mk ((c :: acc).reverse) :: splitLinesAux rest []
    else splitLinesAux rest (c :: acc)

/-- Physical lines of a file's contents, as Python's line iteration
yields them. -/
def physicalLines (contents : String) : List String :=
  splitLinesAux (normNL contents.data) []

/-- Python `line.rstrip('\n\r')`. -/
def rstripNL (s : String) : String :=
  String.mk ((s.data.reverse.dropWhile (fun c => c == '\n' || c == '\r')).reverse)

/-- Python `load_states_no_imports(path)` with the file's decoded text as
input: first line is the header (fields stripped), every later non-blank
line becomes a `Record`, in file order. -/
def load_states_no_imports (contents : String) : List Record :=
  match physicalLines contents with
  | [] => []
  | first :: rest =>
    let header := (parse_csv_line (rstripNL first)).map pyStrip
    rest.foldl (fun states line =>
      let l := rstripNL line
      if l = "" then states
      else states ++ [buildState header (parse_csv_line l)]) []

/-- The indexer's `getattr(s, 'state', None)`. -/
def getState (r : Record) : Value := (getattr_ r "state").getD .null

/-- Python truthiness of a `Value` (`bool(x)`). -/
def isFalsy : Value → Bool
  | .null => true
  | .int n => n == 0
  | .float q => q == 0
  | .str s => s.data.isEmpty

/-- The sort key `(getattr(x, 'date', None) or 0)` of `main`'s bucket
sort: a falsy date (missing, `None`, `0`, `0.0`) becomes the integer 0. -/
def sortKeyVal (r : Record) : Value :=
  if isFalsy ((getattr_ r "date").getD .null) then .int 0
  else (getattr_ r "date").getD .null

/-- Numeric reading of a key, if it is numeric (Python compares `int` and
`float` exactly, which rational comparison reproduces). -/
def numKeyQ : Value → Option ℚ
  | .int n => some (n : ℚ)
  | .float q => some q
  | _ => none

/-- Key belongs to the numeric comparability class. -/
def isNumKey (v : Value) : Bool := (numKeyQ v).isSome

/-- Key belongs to the string comparability class. -/
def isStrKey : Value → Bool
  | .str _ => true
  | _ => false

/-- Python `<=` on sort keys: numbers compare exactly, strings compare
lexicographically by code point; a cross-class comparison raises
`TypeError` in Python — that branch returns an arbitrary `false` and is
only ever reached outside the `sortable` guard below. -/
def pyLeKey (a b : Value) : Bool :=
  match numKeyQ a, numKeyQ b with
  | some x, some y => decide (x ≤ y)
  | _, _ =>
    match a, b with
    | .str s, .str t => decide (s ≤ t)
    | _, _ => false

/-- Comparator on records induced by their sort keys. -/
def recLe (a b : Record) : Bool := pyLeKey (sortKeyVal a) (sortKeyVal b)

/-- Propositional form of `recLe` for `List.insertionSort`. -/
def recLeP (a b : Record) : Prop := recLe a b = true

instance : DecidableRel recLeP :=
  fun a b => inferInstanceAs (Decidable (recLe a b = true))

/-- CPython's `list.sort` raises `TypeError` on a bucket exactly when its
keys mix the numeric and string comparability classes (any mixed list
eventually compares a cross-class pair). -/
def sortable (rows : List Record) : Bool :=
  rows.all (fun r => isNumKey (sortKeyVal r)) || rows.all (fun r => isStrKey (sortKeyVal r))

/-- The guarded bucket sort `try: rows.sort(key=...) except: pass`: a
homogeneous bucket is stably sorted; a mixed bucket's sort raises and the
exception is swallowed.  CPython leaves an abandoned sort in a partially
processed permutation of the bucket (reversed strictly-descending runs
and binary insertions persist), which this model renders as the identity.
Theorems about the swallowed-exception path therefore only rely on the
observables the identity shares with every such partial state — element
membership (a permutation of the pre-sort bucket) and the relative order
of equal sort keys, which no intermediate operation of a stable sort
inverts — plus concrete inputs on which the failing comparison occurs
during initial run detection, before CPython moves any element. -/
def sortBucket (rows : List Record) : List Record :=
  if sortable rows then List.insertionSort recLeP rows else rows

/-- Python `groups[k]` read as a total function: the bucket of the first
entry with the given key, `[]` when absent (keys are unique in practice). -/
def bucketOf : List (String × List Record) → String → List Record
  | [], _ => []
  | p :: t, k => if p.1 = k then p.2 else bucketOf t k

/-- Python `groups.setdefault(k, []).append(r)` on an insertion-ordered
dict represented as an association list: append to the existing bucket in
place, else register a new bucket at the end. -/
def addToGroups : List (String × List Record) → String → Record → List (String × List Record)
  | [], k, r => [(k, [r])]
  | p :: t, k, r => if p.1 = k then (p.1, p.2 ++ [r]) :: t else p :: addToGroups t k r

/-- Grouping loop of `main`: skip a `None` state, bucket a string state
under its upper-cased form; a non-string, non-`None` state hits
`code.upper()` and raises an uncaught `AttributeError` (`none`). -/
def buildGroupsAux : List Record → List (String × List Record) →
    Option (List (String × List Record))
  | [], gs => some gs
  | r :: rest, gs =>
    match getState r with
    | .null => buildGroupsAux rest gs
    | .str s => buildGroupsAux rest (addToGroups gs (pyUpper s) r)
    | _ => none

/-- Grouping phase of the indexer in `main`. -/
def buildGroups (store : List Record) : Option (List (String × List Record)) :=
  buildGroupsAux store []

/-- The full indexer of `main`: group by upper-cased state, then sort
each bucket with the guarded sort. -/
def buildIndex (store : List Record) : Option (List (String × List Record)) :=
  (buildGroups store).map (fun gs => gs.map (fun p => (p.1, sortBucket p.2)))

/-- The sort-field value of a record: `none` when the `date` attribute is
absent, otherwise the stored `Value`. -/
def dateVal (r : Record) : Option Value := getattr_ r "date"

/-- The normalized grouping key a record contributes to: `some` of the
upper-cased state string when the state is a string, `none` otherwise. -/
def keyOf (r : Record) : Option String :=
  match getState r with
  | .str s => some (pyUpper s)
  | _ => none

/-- The records of a store that the grouping phase sends to key `k`, in
store order. -/
def storeBucket (store : List Record) (k : String) : List Record :=
  store.filter (fun r => keyOf r == some k)

/-- A state value the grouping loop handles without raising: `None` is
skipped, a string is bucketed. -/
def isNullOrStr : Value → Bool
  | .null => true
  | .str _ => true
  | _ => false

/-- Rational reading of a record's sort key (arbitrary 0 on the string
class, which is only used on numeric keys). -/
def qKey (r : Record) : ℚ := (numKeyQ (sortKeyVal r)).getD 0

/-- Order of records by rational sort key. -/
def qLe (a b : Record) : Prop := qKey a ≤ qKey b

/-! ### Basic lemmas -/

lemma isStrKey_not_num {v : Value} (h : isStrKey v = true) : isNumKey v = false := by
  cases v <;> simp_all [isStrKey, isNumKey, numKeyQ]

lemma isNumKey_not_str {v : Value} (h : isNumKey v = true) : isStrKey v = false := by
  cases v <;> simp_all [isStrKey, isNumKey, numKeyQ]

lemma parseCSVAux_ne_nil (cs : List Char) (b : Bool) (cur : List Char) (fs : List String) :
    parseCSVAux cs b cur fs ≠ [] := by
  induction cs, b, cur, fs using parseCSVAux.induct <;> simp_all [parseCSVAux]

/-! ### C10 -/

/-- C10: loading a completely empty file (no header line at all) returns
the empty store and raises no error. -/
theorem load_empty_file_returns_empty_store : load_states_no_imports "" = [] := rfl

/-! ### C9 -/

/-- C9: the line parser reproduces the spec's examples: a quoted field may
contain commas, a doubled quote inside a quoted field yields one literal
quote, and the empty line yields one empty field rather than none. -/
theorem parse_line_spec_examples :
    parse_csv_line "\"a,b\",c" = ["a,b", "c"] ∧
    parse_csv_line "\"He said \"\"hi\"\"\",x" = ["He said \"hi\"", "x"] ∧
    parse_csv_line "" = [""] := by
  refine ⟨by decide, by decide, by decide⟩

/-! ### C8 -/

/-- C8: `parse_csv_line` is total: it yields a (never empty) field list on
every input, and at end of input the buffered field is flushed as the
final field even when the scan ends still inside quotes — an unterminated
quote is accepted silently, as on the concrete input `"abc`. -/
theorem parse_line_total_and_flushes_buffer :
    (∀ line : String, 1 ≤ (parse_csv_line line).length) ∧
    (∀ (cur : List Char) (fields : List String),
      parseCSVAux [] true cur fields = fields ++ [String.mk cur]) ∧
    parse_csv_line "\"abc" = ["abc"] := by
  exact ⟨fun line => List.length_pos.mpr (parseCSVAux_ne_nil _ _ _ _),
    fun cur fields => rfl, by decide⟩

/-! ### C6 -/

/-- C6: for a raw value that is non-empty after trimming and a field name
whose lower-cased form is exempt, `_convert` returns the trimmed string
as-is, bypassing numeric inference. -/
theorem infer_exempt_field_returns_trimmed_string (raw name : String)
    (h1 : pyStrip raw ≠ "") (h2 : exemptFields.contains (pyLower name) = true) :
    convert raw name = .str (pyStrip raw) := by
  have h2m : pyLower name ∈ exemptFields := by simpa using h2
  unfold convert
  simp [h1, h2m]

/-- Witness for C6: `infer("06", "fips")` is the string `"06"`, never the
integer 6. -/
theorem infer_fips_06_witness : convert "06" "fips" = Value.str "06" := by
  have h := infer_exempt_field_returns_trimmed_string "06" "fips" (by decide) (by decide)
  exact h

/-! ### C7 -/

/-- C7: for a non-exempt field, a trimmed value containing a comma whose
comma-stripped form is an optionally signed digit string is parsed as the
integer value of that comma-stripped form. -/
theorem infer_comma_number_parses_integer (raw name : String)
    (h1 : exemptFields.contains (pyLower name) = false)
    (h2 : pyContains (pyStrip raw) ',' = true)
    (h3 : looks_like_int (stripCommas (pyStrip raw)) = true) :
    convert raw name = .int (parseInt (stripCommas (pyStrip raw))) := by
  have hne : ¬ pyStrip raw = "" := by
    intro h
    rw [h] at h2
    exact absurd h2 (by decide)
  have h1m : pyLower name ∉ exemptFields := by simpa using h1
  unfold convert
  simp [hne, h1m, h2, h3]

/-- Witness for C7: `infer("1,234", "cases")` is the integer 1234. -/
theorem infer_comma_1234_witness : convert "1,234" "cases" = Value.int 1234 := by
  have h := infer_comma_number_parses_integer "1,234" "cases" (by decide) (by decide) (by decide)
  exact h

/-! ### C1 -/

/-- Counterexample for C1: in the bucket loaded from dates `2`, `1`, `x`,
the pair with dates `2` and `1` is comparable and out of order, yet the
built index leaves the whole bucket in its original order — the failed
comparison against `x` abandons the entire bucket's sort instead of being
a local no-op for only the incomparable pair. -/
theorem sort_comparability_failure_not_pairwise_noop :
    buildIndex (load_states_no_imports "state,date\nWA,2\nWA,1\nWA,x") =
      some [("WA", [[("state", Value.str "WA"), ("date", Value.int 2)],
                    [("state", Value.str "WA"), ("date", Value.int 1)],
                    [("state", Value.str "WA"), ("date", Value.str "x")]])] ∧
    recLe [("state", Value.str "WA"), ("date", Value.int 1)]
        [("state", Value.str "WA"), ("date", Value.int 2)] = true ∧
    recLe [("state", Value.str "WA"), ("date", Value.int 2)]
        [("state", Value.str "WA"), ("date", Value.int 1)] = false := by
  refine ⟨by decide, by decide, by decide⟩

/-! ### C3 counterexample -/

/-- Counterexample for C3: a Null sort value is keyed as 0, which is not
the lowest possible key — the record with present date `-1` stays ordered
before the Null-date record in the built index, where the claim requires
every Null-date record to come first. -/
theorem null_sort_key_not_lowest :
    buildIndex (load_states_no_imports "state,date\nWA,-1\nWA,") =
      some [("WA", [[("state", Value.str "WA"), ("date", Value.int (-1))],
                    [("state", Value.str "WA"), ("date", Value.null)]])] ∧
    dateVal [("state", Value.str "WA"), ("date", Value.int (-1))] = some (Value.int (-1)) ∧
    dateVal [("state", Value.str "WA"), ("date", Value.null)] = some Value.null := by
  refine ⟨by decide, by decide, by decide⟩

/-! ### C2 counterexample -/

/-- Counterexample for C2: a store whose single record has the non-Null,
non-string state value `5` makes the indexer raise (uncaught) at
`code.upper()` instead of bucketing the record under `"5"`. -/
theorem index_nonstring_key_raises :
    buildIndex [[("state", Value.int 5)]] = none ∧
    getState [("state", Value.int 5)] = Value.int 5 := by
  exact ⟨rfl, rfl⟩

/-! ### C5 counterexample -/

/-- Counterexample for C5: with the duplicate header `["a", "a"]` (length
2) the second `setattr` overwrites the first attribute, so the resulting
record has 1 field, not 2. -/
theorem record_field_count_collapses_on_duplicate_names :
    buildState ["a", "a"] ["1", "2"] = [("a", Value.int 2)] ∧
    (buildState ["a", "a"] ["1", "2"]).length = 1 := by
  refine ⟨by decide, by decide⟩

/-! ### Grouping-phase lemmas -/

lemma bucketOf_addToGroups (gs : List (String × List Record)) (k : String) (r : Record)
    (k' : String) :
    bucketOf (addToGroups gs k r) k' =
      if k' = k then bucketOf gs k ++ [r] else bucketOf gs k' := by
  induction gs with
  | nil =>
    by_cases h : k' = k
    · subst h; simp [addToGroups, bucketOf]
    · have h2 : ¬ k = k' := fun he => h he.symm
      simp [addToGroups, bucketOf, h, h2]
  | cons p t ih =>
    by_cases hpk : p.1 = k
    · by_cases h : k' = k
      · subst h; simp [addToGroups, bucketOf, hpk]
      · have h2 : ¬ p.1 = k' := fun he => h (he.symm.trans hpk)
        have h3 : ¬ k = k' := fun he => h he.symm
        simp [addToGroups, bucketOf, hpk, h, h2, h3]
    · by_cases hh : p.1 = k'
      · have hkk : ¬ k' = k := fun he => hpk (hh.trans he)
        simp [addToGroups, bucketOf, hpk, hh, hkk]
      · simp [addToGroups, bucketOf, hpk, hh, ih]

lemma keys_addToGroups (gs : List (String × List Record)) (k : String) (r : Record) :
    (addToGroups gs k r).map Prod.fst =
      if k ∈ gs.map Prod.fst then gs.map Prod.fst else gs.map Prod.fst ++ [k] := by
  induction gs with
  | nil => simp [addToGroups]
  | cons p t ih =>
    by_cases h : p.1 = k
    · simp [addToGroups, h]
    · have hne : ¬ k = p.1 := fun he => h he.symm
      by_cases hm : k ∈ t.map Prod.fst
      · simp [addToGroups, h, ih, hm, hne, List.mem_cons]
      · simp [addToGroups, h, ih, hm, hne, List.mem_cons]

lemma keys_nodup_addToGroups (gs : List (String × List Record)) (k : String) (r : Record)
    (h : (gs.map Prod.fst).Nodup) : ((addToGroups gs k r).map Prod.fst).Nodup := by
  rw [keys_addToGroups]
  split
  · exact h
  · rename_i hk
    simp only [List.nodup_append, List.nodup_cons, List.not_mem_nil, not_false_iff,
      List.nodup_nil, and_true, true_and]
    exact ⟨h, by simpa using fun hmem => hk hmem⟩

lemma buildGroupsAux_bucketOf (store : List Record) :
    ∀ (gs gs' : List (String × List Record)), buildGroupsAux store gs = some gs' →
      ∀ k, bucketOf gs' k = bucketOf gs k ++ storeBucket store k := by
  induction store with
  | nil =>
    intro gs gs' h k
    unfold buildGroupsAux at h
    injection h with h2
    subst h2
    simp [storeBucket]
  | cons r rest ih =>
    intro gs gs' h k
    unfold buildGroupsAux at h
    cases hst : getState r with
    | null =>
      rw [hst] at h
      have hb := ih gs gs' h k
      have hkey : (keyOf r == some k) = false := by simp [keyOf, hst]
      have hsb : storeBucket (r :: rest) k = storeBucket rest k := by
        simp [storeBucket, List.filter_cons, hkey]
      rw [hb, hsb]
    | str s =>
      rw [hst] at h
      have hb := ih (addToGroups gs (pyUpper s) r) gs' h k
      rw [hb, bucketOf_addToGroups]
      by_cases hk : k = pyUpper s
      · rw [if_pos hk, ← hk]
        have hkey : (keyOf r == some k) = true := by
          simp [keyOf, hst, hk]
        have hsb : storeBucket (r :: rest) k = r :: storeBucket rest k := by
          simp [storeBucket, List.filter_cons, hkey]
        rw [hsb]
        simp
      · have hkey : (keyOf r == some k) = false := by
          simp [keyOf, hst]
          exact fun he => hk he.symm
        have hsb : storeBucket (r :: rest) k = storeBucket rest k := by
          simp [storeBucket, List.filter_cons, hkey]
        rw [if_neg hk, hsb]
    | int n =>
      rw [hst] at h
      exact absurd h (by simp [buildGroupsAux])
    | float q =>
      rw [hst] at h
      exact absurd h (by simp [buildGroupsAux])

lemma buildGroupsAux_keys_nodup (store : List Record) :
    ∀ (gs gs' : List (String × List Record)), buildGroupsAux store gs = some gs' →
      (gs.map Prod.fst).Nodup → (gs'.map Prod.fst).Nodup := by
  induction store with
  | nil =>
    intro gs gs' h hnd
    unfold buildGroupsAux at h
    injection h with h2
    subst h2
    exact hnd
  | cons r rest ih =>
    intro gs gs' h hnd
    unfold buildGroupsAux at h
    cases hst : getState r with
    | null => rw [hst] at h; exact ih gs gs' h hnd
    | str s => rw [hst] at h; exact ih _ gs' h (keys_nodup_addToGroups gs (pyUpper s) r hnd)
    | int n => rw [hst] at h; exact absurd h (by simp [buildGroupsAux])
    | float q => rw [hst] at h; exact absurd h (by simp [buildGroupsAux])

lemma buildGroupsAux_total (store : List Record)
    (h : ∀ r ∈ store, isNullOrStr (getState r) = true) :
    ∀ gs, ∃ gs', buildGroupsAux store gs = some gs' := by
  induction store with
  | nil => intro gs; exact ⟨gs, rfl⟩
  | cons r rest ih =>
    intro gs
    have hr := h r (List.mem_cons_self r rest)
    have hrest : ∀ x ∈ rest, isNullOrStr (getState x) = true :=
      fun x hx => h x (List.mem_cons_of_mem r hx)
    cases hst : getState r with
    | null =>
      obtain ⟨gs', hgs'⟩ := ih hrest gs
      exact ⟨gs', by rw [buildGroupsAux, hst]; exact hgs'⟩
    | str s =>
      obtain ⟨gs', hgs'⟩ := ih hrest (addToGroups gs (pyUpper s) r)
      exact ⟨gs', by rw [buildGroupsAux, hst]; exact hgs'⟩
    | int n => rw [hst] at hr; simp [isNullOrStr] at hr
    | float q => rw [hst] at hr; simp [isNullOrStr] at hr

lemma mem_of_bucketOf_ne_nil (gs : List (String × List Record)) (k : String)
    (h : bucketOf gs k ≠ []) : (k, bucketOf gs k) ∈ gs := by
  induction gs with
  | nil => simp [bucketOf] at h
  | cons p t ih =>
    by_cases hpk : p.1 = k
    · rw [bucketOf, if_pos hpk]
      rw [bucketOf, if_pos hpk] at h
      exact hpk ▸ List.mem_cons_self p t
    · rw [bucketOf, if_neg hpk]
      rw [bucketOf, if_neg hpk] at h
      exact List.mem_cons_of_mem p (ih h)

lemma bucketOf_of_mem_nodup (gs : List (String × List Record)) (k : String) (b : List Record)
    (hnd : (gs.map Prod.fst).Nodup) (hmem : (k, b) ∈ gs) : bucketOf gs k = b := by
  induction gs with
  | nil => cases hmem
  | cons p t ih =>
    rcases List.mem_cons.mp hmem with heq | hmem2
    · rw [← heq, bucketOf, if_pos rfl]
    · by_cases hpk : p.1 = k
      · exfalso
        have hkt : k ∈ t.map Prod.fst := List.mem_map.mpr ⟨(k, b), hmem2, rfl⟩
        have := (List.nodup_cons.mp hnd).1
        exact this (hpk ▸ hkt)
      · rw [bucketOf, if_neg hpk]
        exact ih (List.nodup_cons.mp hnd).2 hmem2

lemma sortBucket_perm (rows : List Record) : (sortBucket rows).Perm rows := by
  unfold sortBucket
  split
  · exact List.perm_insertionSort recLeP rows
  · exact List.Perm.refl rows

/-! ### C2 -/

/-- C2 as amended: on any store whose records' state values are all Null
or strings — which is every store the loader can produce, the `state`
field being exempt from numeric inference — indexing succeeds, bucket
keys are distinct, every record with a string state value lands in the
bucket keyed by its upper-cased state, and every bucket member has a
string state value matching its bucket key (hence a record with Null or
absent state is in no bucket, and each bucketed record is in exactly one).
The code does not render a non-string state to a string: it raises
(see the counterexample). -/
theorem index_membership_for_null_or_string_keys (store : List Record)
    (h : store.all (fun r => isNullOrStr (getState r)) = true) :
    ∃ idx, buildIndex store = some idx ∧
      (idx.map Prod.fst).Nodup ∧
      (∀ r ∈ store, ∀ s, getState r = .str s → ∃ b, (pyUpper s, b) ∈ idx ∧ r ∈ b) ∧
      (∀ k b, (k, b) ∈ idx → ∀ r ∈ b, ∃ s, getState r = .str s ∧ pyUpper s = k) := by
  obtain ⟨gs', hgs'⟩ := buildGroupsAux_total store (fun r hr => List.all_eq_true.mp h r hr) []
  have hidx : buildIndex store = some (gs'.map (fun p => (p.1, sortBucket p.2))) := by
    unfold buildIndex buildGroups
    rw [hgs']
    rfl
  refine ⟨gs'.map (fun p => (p.1, sortBucket p.2)), hidx, ?_, ?_, ?_⟩
  · have : (gs'.map (fun p => (p.1, sortBucket p.2))).map Prod.fst = gs'.map Prod.fst := by
      simp
    rw [this]
    exact buildGroupsAux_keys_nodup store [] gs' hgs' (by simp)
  · intro r hr s hst
    have hkey : keyOf r = some (pyUpper s) := by simp [keyOf, hst]
    have hrb : r ∈ storeBucket store (pyUpper s) :=
      List.mem_filter.mpr ⟨hr, by simp [hkey]⟩
    have hbeq : bucketOf gs' (pyUpper s) = storeBucket store (pyUpper s) := by
      have := buildGroupsAux_bucketOf store [] gs' hgs' (pyUpper s)
      simpa [bucketOf] using this
    have hne : bucketOf gs' (pyUpper s) ≠ [] := by
      rw [hbeq]
      exact List.ne_nil_of_mem hrb
    have hment : (pyUpper s, bucketOf gs' (pyUpper s)) ∈ gs' :=
      mem_of_bucketOf_ne_nil gs' (pyUpper s) hne
    refine ⟨sortBucket (bucketOf gs' (pyUpper s)), ?_, ?_⟩
    · exact List.mem_map.mpr ⟨(pyUpper s, bucketOf gs' (pyUpper s)), hment, rfl⟩
    · exact (sortBucket_perm _).mem_iff.mpr (hbeq ▸ hrb)
  · intro k b hkb r hrb
    obtain ⟨p, hp, hpe⟩ := List.mem_map.mp hkb
    have hpk : p.1 = k := congrArg Prod.fst hpe
    have hpb : sortBucket p.2 = b := congrArg Prod.snd hpe
    have hnd : (gs'.map Prod.fst).Nodup :=
      buildGroupsAux_keys_nodup store [] gs' hgs' (by simp)
    have hbO : bucketOf gs' k = p.2 :=
      bucketOf_of_mem_nodup gs' k p.2 hnd (by rw [← hpk]; exact hp)
    have hbS : bucketOf gs' k = storeBucket store k := by
      have := buildGroupsAux_bucketOf store [] gs' hgs' k
      simpa [bucketOf] using this
    have hrp2 : r ∈ p.2 := (sortBucket_perm p.2).mem_iff.mp (hpb ▸ hrb)
    have hrS : r ∈ storeBucket store k := by rw [← hbS, hbO]; exact hrp2
    have hkr : (keyOf r == some k) = true := (List.mem_filter.mp hrS).2
    cases hst : getState r with
    | str s =>
      refine ⟨s, rfl, ?_⟩
      have : keyOf r = some (pyUpper s) := by simp [keyOf, hst]
      rw [this] at hkr
      simpa using hkr
    | null => rw [show keyOf r = none by simp [keyOf, hst]] at hkr; simp at hkr
    | int n => rw [show keyOf r = none by simp [keyOf, hst]] at hkr; simp at hkr
    | float q => rw [show keyOf r = none by simp [keyOf, hst]] at hkr; simp at hkr

/-- Witness for the amended C2 at a concrete two-record store: the
lower-case state `wa` is bucketed under `WA` and indexing succeeds. -/
theorem index_membership_witness :
    ([[("state", Value.str "wa")], [("state", Value.null)]].all
      (fun r => isNullOrStr (getState r)) = true) ∧
    ∃ idx b, buildIndex [[("state", Value.str "wa")], [("state", Value.null)]] = some idx ∧
      ("WA", b) ∈ idx ∧ [("state", Value.str "wa")] ∈ b := by
  refine ⟨by decide, ?_⟩
  obtain ⟨idx, hidx, hnd, hex, hmem⟩ :=
    index_membership_for_null_or_string_keys
      [[("state", Value.str "wa")], [("state", Value.null)]] (by decide)
  obtain ⟨b, hbmem, hrb⟩ :=
    hex [("state", Value.str "wa")] (by simp) "wa" rfl
  exact ⟨idx, b, hidx, hbmem, hrb⟩

/-! ### Sorting lemmas -/

lemma sortKeyVal_ne_null (r : Record) : sortKeyVal r ≠ Value.null := by
  unfold sortKeyVal
  split
  · simp
  · rename_i hf
    intro hnull
    rw [hnull] at hf
    simp [isFalsy] at hf

lemma sortKeyVal_eq_of_dateVal_eq {a b : Record} (h : dateVal a = dateVal b) :
    sortKeyVal a = sortKeyVal b := by
  unfold dateVal at h
  unfold sortKeyVal
  rw [h]

lemma pyLeKey_refl {v : Value} (h : v ≠ Value.null) : pyLeKey v v = true := by
  cases v with
  | null => exact absurd rfl h
  | int n => simp [pyLeKey, numKeyQ]
  | float q => simp [pyLeKey, numKeyQ]
  | str s => simp [pyLeKey, numKeyQ]

lemma recLeP_of_eq_keys {a b : Record} (h : sortKeyVal a = sortKeyVal b) : recLeP a b := by
  unfold recLeP recLe
  rw [h]
  exact pyLeKey_refl (sortKeyVal_ne_null b)

lemma filter_orderedInsert (P : Record → Bool)
    (hP : ∀ x y, P x = true → P y = true → recLeP x y) (a : Record) :
    ∀ s : List Record, (List.orderedInsert recLeP a s).filter P =
      if P a then a :: s.filter P else s.filter P := by
  intro s
  induction s with
  | nil => simp [List.orderedInsert, List.filter_cons]
  | cons b s ih =>
    rw [List.orderedInsert]
    by_cases hab : recLeP a b
    · rw [if_pos hab]
      by_cases hPa : P a = true
      · simp [List.filter_cons, hPa]
      · simp [List.filter_cons, hPa]
    · rw [if_neg hab]
      by_cases hPb : P b = true
      · have hPa : ¬ P a = true := fun hPa => hab (hP a b hPa hPb)
        simp [List.filter_cons, hPb, hPa, ih]
      · simp [List.filter_cons, hPb, ih]

lemma filter_insertionSort (P : Record → Bool)
    (hP : ∀ x y, P x = true → P y = true → recLeP x y) :
    ∀ l : List Record, (List.insertionSort recLeP l).filter P = l.filter P := by
  intro l
  induction l with
  | nil => rfl
  | cons a l ih =>
    rw [List.insertionSort, filter_orderedInsert P hP a, ih]
    by_cases hPa : P a = true
    · simp [List.filter_cons, hPa]
    · simp [List.filter_cons, hPa]

lemma filter_sortBucket (P : Record → Bool)
    (hP : ∀ x y, P x = true → P y = true → recLeP x y) (rows : List Record) :
    (sortBucket rows).filter P = rows.filter P := by
  unfold sortBucket
  split
  · exact filter_insertionSort P hP rows
  · rfl

lemma recLe_eq_qle_of_num {a b : Record} (hna : isNumKey (sortKeyVal a) = true)
    (hnb : isNumKey (sortKeyVal b) = true) : recLe a b = true ↔ qKey a ≤ qKey b := by
  unfold isNumKey at hna hnb
  obtain ⟨x, hx⟩ := Option.isSome_iff_exists.mp hna
  obtain ⟨y, hy⟩ := Option.isSome_iff_exists.mp hnb
  unfold recLe pyLeKey qKey
  rw [hx, hy]
  simp

lemma pairwise_orderedInsert (a : Record) (s : List Record)
    (hna : isNumKey (sortKeyVal a) = true)
    (hs : ∀ x ∈ s, isNumKey (sortKeyVal x) = true)
    (hp : List.Pairwise qLe s) :
    List.Pairwise qLe (List.orderedInsert recLeP a s) := by
  induction s with
  | nil => simp [List.orderedInsert]
  | cons b s ih =>
    rw [List.orderedInsert]
    by_cases hab : recLeP a b
    · rw [if_pos hab]
      have hnb := hs b (List.mem_cons_self b s)
      have hqab : qKey a ≤ qKey b := (recLe_eq_qle_of_num hna hnb).mp hab
      constructor
      · intro y hy
        rcases List.mem_cons.mp hy with rfl | hy2
        · exact hqab
        · exact le_trans hqab ((List.pairwise_cons.mp hp).1 y hy2)
      · exact hp
    · rw [if_neg hab]
      have hnb := hs b (List.mem_cons_self b s)
      have hqba : qKey b ≤ qKey a := by
        have hn : ¬ qKey a ≤ qKey b := fun hq => hab ((recLe_eq_qle_of_num hna hnb).mpr hq)
        exact le_of_not_le hn
      constructor
      · intro y hy
        rcases (List.mem_orderedInsert recLeP).mp hy with rfl | hy2
        · exact hqba
        · exact (List.pairwise_cons.mp hp).1 y hy2
      · exact ih (fun x hx => hs x (List.mem_cons_of_mem b hx)) (List.pairwise_cons.mp hp).2

lemma pairwise_insertionSort (l : List Record)
    (h : ∀ x ∈ l, isNumKey (sortKeyVal x) = true) :
    List.Pairwise qLe (List.insertionSort recLeP l) := by
  induction l with
  | nil => simp [List.insertionSort]
  | cons a l ih =>
    rw [List.insertionSort]
    refine pairwise_orderedInsert a _ (h a (List.mem_cons_self a l)) ?_ ?_
    · intro x hx
      exact h x (List.mem_cons_of_mem a ((List.perm_insertionSort recLeP l).mem_iff.mp hx))
    · exact ih (fun x hx => h x (List.mem_cons_of_mem a hx))

/-! ### C1 amended theorem -/

/-- C1 as amended: when a bucket contains two records whose sort keys are
of incompatible types (one numeric, one string), the comparator raises
and the whole bucket's sort is abandoned — there is no per-pair no-op
recovery.  The exception is swallowed inside the indexer (it never
propagates), leaving the bucket as a partially processed permutation of
its pre-sort content in which records with equal sort-field values still
retain their store order; the bucket is not, in general, sorted at all
(at the counterexample's input the failing comparison occurs before any
element moves, so the bucket keeps its exact pre-sort order there). -/
theorem sort_comparability_failure_abandons_whole_bucket (rows : List Record)
    (a : Record) (ha : a ∈ rows) (b : Record) (hb : b ∈ rows)
    (hna : isNumKey (sortKeyVal a) = true) (hsb : isStrKey (sortKeyVal b) = true) :
    sortable rows = false ∧
    (sortBucket rows).Perm rows ∧
    (∀ dv : Option Value,
      (sortBucket rows).filter (fun r => decide (dateVal r = dv)) =
        rows.filter (fun r => decide (dateVal r = dv))) := by
  have h1 : rows.all (fun r => isNumKey (sortKeyVal r)) = false := by
    cases hx : rows.all (fun r => isNumKey (sortKeyVal r)) with
    | false => rfl
    | true =>
      have hball := (List.all_eq_true.mp hx) b hb
      rw [isStrKey_not_num hsb] at hball
      simp at hball
  have h2 : rows.all (fun r => isStrKey (sortKeyVal r)) = false := by
    cases hx : rows.all (fun r => isStrKey (sortKeyVal r)) with
    | false => rfl
    | true =>
      have haall := (List.all_eq_true.mp hx) a ha
      rw [isNumKey_not_str hna] at haall
      simp at haall
  have hs : sortable rows = false := by
    unfold sortable
    rw [h1, h2]
    rfl
  refine ⟨hs, sortBucket_perm rows, ?_⟩
  intro dv
  refine filter_sortBucket _ ?_ rows
  intro x y hx hy
  exact recLeP_of_eq_keys
    (sortKeyVal_eq_of_dateVal_eq ((of_decide_eq_true hx).trans (of_decide_eq_true hy).symm))

/-- Witness for the amended C1 at the concrete mixed bucket: a numeric
and a string key are present, the sort is abandoned, and the abandoned
bucket is a permutation of its pre-sort content. -/
theorem sort_comparability_failure_abandons_whole_bucket_witness :
    (isNumKey (sortKeyVal [("date", Value.int 2)]) = true) ∧
    (isStrKey (sortKeyVal [("date", Value.str "x")]) = true) ∧
    sortable [[("date", Value.int 2)], [("date", Value.int 1)], [("date", Value.str "x")]]
      = false ∧
    (sortBucket [[("date", Value.int 2)], [("date", Value.int 1)],
      [("date", Value.str "x")]]).Perm
      [[("date", Value.int 2)], [("date", Value.int 1)], [("date", Value.str "x")]] :=
  ⟨by decide, by decide,
    (sort_comparability_failure_abandons_whole_bucket
      [[("date", Value.int 2)], [("date", Value.int 1)], [("date", Value.str "x")]]
      [("date", Value.int 2)] (by simp) [("date", Value.str "x")] (by simp)
      (by decide) (by decide)).1,
    (sort_comparability_failure_abandons_whole_bucket
      [[("date", Value.int 2)], [("date", Value.int 1)], [("date", Value.str "x")]]
      [("date", Value.int 2)] (by simp) [("date", Value.str "x")] (by simp)
      (by decide) (by decide)).2.1⟩

/-! ### C4 -/

/-- C4: within every bucket of a successfully built index, the records
holding any fixed sort-field value appear exactly as they do in the
original store (restricted to that bucket's key) — the per-bucket sort is
stable for records with equal sort-field values. -/
theorem bucket_sort_stable_equal_sort_values (store : List Record)
    (idx : List (String × List Record)) (h : buildIndex store = some idx)
    (k : String) (b : List Record) (hkb : (k, b) ∈ idx) (dv : Option Value) :
    b.filter (fun r => decide (dateVal r = dv)) =
      (store.filter (fun r => keyOf r == some k)).filter (fun r => decide (dateVal r = dv)) := by
  unfold buildIndex at h
  obtain ⟨gs', hgs', hmap⟩ := Option.map_eq_some'.mp h
  rw [← hmap] at hkb
  obtain ⟨p, hp, hpe⟩ := List.mem_map.mp hkb
  have hpk : p.1 = k := congrArg Prod.fst hpe
  have hpb : sortBucket p.2 = b := congrArg Prod.snd hpe
  have hnd : (gs'.map Prod.fst).Nodup := buildGroupsAux_keys_nodup store [] gs' hgs' (by simp)
  have hkp : (k, p.2) = p := by rw [← hpk]
  have hbO : bucketOf gs' k = p.2 := bucketOf_of_mem_nodup gs' k p.2 hnd (by rw [hkp]; exact hp)
  have hbS : bucketOf gs' k = storeBucket store k := by
    have h0 := buildGroupsAux_bucketOf store [] gs' hgs' k
    simpa [bucketOf] using h0
  have hp2 : p.2 = storeBucket store k := by rw [← hbO, hbS]
  have hP : ∀ x y, (fun r => decide (dateVal r = dv)) x = true →
      (fun r => decide (dateVal r = dv)) y = true → recLeP x y := by
    intro x y hx hy
    exact recLeP_of_eq_keys
      (sortKeyVal_eq_of_dateVal_eq ((of_decide_eq_true hx).trans (of_decide_eq_true hy).symm))
  calc b.filter (fun r => decide (dateVal r = dv))
      = (sortBucket p.2).filter (fun r => decide (dateVal r = dv)) := by rw [hpb]
    _ = p.2.filter (fun r => decide (dateVal r = dv)) := filter_sortBucket _ hP p.2
    _ = (store.filter (fun r => keyOf r == some k)).filter (fun r => decide (dateVal r = dv)) := by
        rw [hp2]; rfl

/-! ### C3 -/

/-- C3 as amended: a missing or Null sort value is keyed as the integer 0
— not the lowest possible key.  In a bucket whose sort keys are all
numeric the sort completes: the bucket ends up sorted by rational key, so
a Null-date record (key 0) ends up before every record with a positive
sort key (and after records with negative keys); no error is raised. -/
theorem null_sort_key_is_zero_and_buckets_sorted (rows : List Record)
    (h : rows.all (fun r => isNumKey (sortKeyVal r)) = true) :
    List.Pairwise qLe (sortBucket rows) ∧
    (∀ r : Record, dateVal r = none ∨ dateVal r = some Value.null → sortKeyVal r = Value.int 0) ∧
    (∀ i j : Fin (sortBucket rows).length,
      sortKeyVal ((sortBucket rows).get i) = Value.int 0 →
      0 < qKey ((sortBucket rows).get j) → (i : Nat) < (j : Nat)) := by
  have hall : ∀ x ∈ rows, isNumKey (sortKeyVal x) = true := List.all_eq_true.mp h
  have hsortable : sortable rows = true := by
    unfold sortable
    rw [h]
    rfl
  have hbucket : sortBucket rows = List.insertionSort recLeP rows := by
    unfold sortBucket
    rw [if_pos hsortable]
  have hpair : List.Pairwise qLe (sortBucket rows) := by
    rw [hbucket]
    exact pairwise_insertionSort rows hall
  refine ⟨hpair, ?_, ?_⟩
  · intro r hr
    unfold sortKeyVal
    rcases hr with h1 | h1 <;>
      (unfold dateVal at h1; rw [h1]; simp [isFalsy])
  · intro i j hi hj
    have hqi : qKey ((sortBucket rows).get i) = 0 := by
      unfold qKey
      rw [hi]
      simp [numKeyQ]
    by_contra hij
    have hji : (j : Nat) ≤ (i : Nat) := Nat.le_of_not_lt hij
    rcases Nat.eq_or_lt_of_le hji with heq | hlt
    · have hje : j = i := Fin.ext heq
      rw [hje, hqi] at hj
      exact lt_irrefl 0 hj
    · have hpg : qLe ((sortBucket rows).get j) ((sortBucket rows).get i) :=
        List.pairwise_iff_get.mp hpair j i (Fin.lt_def.mpr hlt)
      have hle : qKey ((sortBucket rows).get j) ≤ 0 := by
        rw [← hqi]
        exact hpg
      exact absurd hj (not_lt.mpr hle)

/-- Witness for the amended C3: in the concrete all-numeric bucket with
dates `3` and Null, the conclusion holds with hypotheses discharged. -/
theorem null_sort_key_witness :
    ([[("date", Value.int 3)], [("date", Value.null)]].all
      (fun r => isNumKey (sortKeyVal r)) = true) ∧
    List.Pairwise qLe (sortBucket [[("date", Value.int 3)], [("date", Value.null)]]) :=
  ⟨by decide,
    (null_sort_key_is_zero_and_buckets_sorted
      [[("date", Value.int 3)], [("date", Value.null)]] (by decide)).1⟩

/-- Witness for C4: in the index built from dates `9`, `5`, `5`, the
bucket sorts to `5, 5, 9` and the two equal-date records appear in store
order. -/
theorem bucket_sort_stable_witness :
    buildIndex (load_states_no_imports "state,date,positive\nWA,9,1\nWA,5,2\nWA,5,3") =
      some [("WA",
        [[("state", Value.str "WA"), ("date", Value.int 5), ("positive", Value.int 2)],
         [("state", Value.str "WA"), ("date", Value.int 5), ("positive", Value.int 3)],
         [("state", Value.str "WA"), ("date", Value.int 9), ("positive", Value.int 1)]])] ∧
    ([[("state", Value.str "WA"), ("date", Value.int 5), ("positive", Value.int 2)],
      [("state", Value.str "WA"), ("date", Value.int 5), ("positive", Value.int 3)],
      [("state", Value.str "WA"), ("date", Value.int 9), ("positive", Value.int 1)]].filter
        (fun r => decide (dateVal r = some (Value.int 5))) =
      ((load_states_no_imports "state,date,positive\nWA,9,1\nWA,5,2\nWA,5,3").filter
        (fun r => keyOf r == some "WA")).filter
          (fun r => decide (dateVal r = some (Value.int 5)))) :=
  ⟨by decide,
    bucket_sort_stable_equal_sort_values
      (load_states_no_imports "state,date,positive\nWA,9,1\nWA,5,2\nWA,5,3")
      [("WA",
        [[("state", Value.str "WA"), ("date", Value.int 5), ("positive", Value.int 2)],
         [("state", Value.str "WA"), ("date", Value.int 5), ("positive", Value.int 3)],
         [("state", Value.str "WA"), ("date", Value.int 9), ("positive", Value.int 1)]])]
      (by decide) "WA"
      [[("state", Value.str "WA"), ("date", Value.int 5), ("positive", Value.int 2)],
       [("state", Value.str "WA"), ("date", Value.int 5), ("positive", Value.int 3)],
       [("state", Value.str "WA"), ("date", Value.int 9), ("positive", Value.int 1)]]
      (by decide) (some (Value.int 5))⟩

/-! ### C5 -/

lemma setattr_append (acc : Record) (k : String) (v : Value)
    (h : ∀ p ∈ acc, p.1 ≠ k) : setattr_ acc k v = acc ++ [(k, v)] := by
  induction acc with
  | nil => rfl
  | cons p t ih =>
    rw [setattr_, if_neg (h p (List.mem_cons_self p t)),
      ih (fun q hq => h q (List.mem_cons_of_mem p hq))]
    rfl

lemma foldl_setattr_disjoint :
    ∀ (pairs : List (String × String)) (acc : Record),
    (pairs.map (fun kv => pyStrip kv.1)).Nodup →
    (∀ kv ∈ pairs, ∀ p ∈ acc, p.1 ≠ pyStrip kv.1) →
    pairs.foldl (fun r kv => setattr_ r (pyStrip kv.1) (convert kv.2 kv.1)) acc =
      acc ++ pairs.map (fun kv => (pyStrip kv.1, convert kv.2 kv.1)) := by
  intro pairs
  induction pairs with
  | nil => intro acc _ _; simp
  | cons kv rest ih =>
    intro acc hnd hdis
    rw [List.map_cons] at hnd
    have hnd2 := List.nodup_cons.mp hnd
    rw [List.foldl_cons,
      setattr_append acc (pyStrip kv.1) _ (fun p hp => hdis kv (List.mem_cons_self kv rest) p hp),
      ih (acc ++ [(pyStrip kv.1, convert kv.2 kv.1)]) hnd2.2 ?_]
    · simp
    · intro kv2 hkv2 p hp
      rcases List.mem_append.mp hp with hpa | hps
      · exact hdis kv2 (List.mem_cons_of_mem kv hkv2) p hpa
      · have hpe : p = (pyStrip kv.1, convert kv.2 kv.1) := by simpa using hps
        rw [hpe]
        intro he
        exact hnd2.1 (List.mem_map.mpr ⟨kv2, hkv2, he.symm⟩)

lemma reconcileRow_length (header row : List String) :
    (reconcileRow header row).length = header.length := by
  unfold reconcileRow
  split
  · rename_i h
    simp
    omega
  · split
    · rename_i h2
      simp
      omega
    · rename_i h1 h2
      omega

lemma buildState_eq_zip (header row : List String)
    (hnd : (header.map pyStrip).Nodup) :
    buildState header row =
      (header.zip (reconcileRow header row)).map
        (fun kv => (pyStrip kv.1, convert kv.2 kv.1)) := by
  have hz : (header.zip (reconcileRow header row)).map Prod.fst = header :=
    List.map_fst_zip header _ (le_of_eq (reconcileRow_length header row).symm)
  have h1 : ((header.zip (reconcileRow header row)).map (fun kv => pyStrip kv.1)).Nodup := by
    have he : (header.zip (reconcileRow header row)).map (fun kv => pyStrip kv.1)
        = header.map pyStrip := by
      rw [show (fun kv : String × String => pyStrip kv.1) = pyStrip ∘ Prod.fst from rfl,
        ← List.map_map, hz]
    rw [he]
    exact hnd
  have h2 : ∀ kv ∈ header.zip (reconcileRow header row), ∀ p ∈ ([] : Record),
      p.1 ≠ pyStrip kv.1 := by
    intro kv _ p hp
    cases hp
  unfold buildState
  rw [foldl_setattr_disjoint _ [] h1 h2]
  rfl

lemma reconcileRow_pad (header row : List String) (i : Nat)
    (h1 : row.length ≤ i) (h2 : i < header.length) :
    (reconcileRow header row)[i]? = some "" := by
  unfold reconcileRow
  have hlt : row.length < header.length := lt_of_le_of_lt h1 h2
  rw [if_pos hlt, List.getElem?_append_right h1, List.getElem?_replicate_of_lt (by omega)]

lemma convert_empty (k : String) : convert "" k = Value.null := rfl

/-- C5 as amended: when the stripped header names are pairwise distinct,
a record built from a header of length N has exactly N fields, and if the
row was shorter than the header the trailing padded fields hold Null.
With duplicate names the later `setattr` overwrites the earlier attribute
and the field count drops below N (see the counterexample). -/
theorem record_reconciliation_under_distinct_names (header row : List String)
    (hnd : (header.map pyStrip).Nodup) :
    (buildState header row).length = header.length ∧
    (∀ i, row.length ≤ i → i < header.length →
      ∃ k, (buildState header row)[i]? = some (k, Value.null)) := by
  have hb := buildState_eq_zip header row hnd
  have hzlen : (header.zip (reconcileRow header row)).length = header.length := by
    rw [List.length_zip, reconcileRow_length]
    exact Nat.min_self header.length
  constructor
  · rw [hb, List.length_map, hzlen]
  · intro i h1 h2
    have hhi : header[i]? = some header[i] := List.getElem?_eq_getElem h2
    have hri : (reconcileRow header row)[i]? = some "" := reconcileRow_pad header row i h1 h2
    have hzi : (header.zip (reconcileRow header row))[i]? = some (header[i], "") :=
      List.getElem?_zip_eq_some.mpr ⟨hhi, hri⟩
    refine ⟨pyStrip header[i], ?_⟩
    rw [hb, List.getElem?_map, hzi]
    rfl

/-- Witness for the amended C5: the record from header `a,b,c` and the
one-field row `1` has three fields with the padded ones Null. -/
theorem record_reconciliation_witness :
    ((["a", "b", "c"].map pyStrip).Nodup) ∧
    (buildState ["a", "b", "c"] ["1"]).length = (["a", "b", "c"] : List String).length :=
  ⟨by decide,
    (record_reconciliation_under_distinct_names ["a", "b", "c"] ["1"] (by decide)).1⟩

end StateLoader
